import Mathlib

/- Verification of the RSI backtesting core of the HSGProject repository
   (src/subcode/Preparation.py together with the simplified variant in
   src/subcode/Main.py).  Prices, cash and fees are modelled as exact
   rationals; where the Python code relies on pandas NaN or inf
   propagation, that behaviour is made explicit and documented at the
   corresponding definition. -/

namespace HSG

/-- Day-over-day gain at bar `i`, that is `(delta.where(delta > 0, 0)).fillna(0)`
in `calculate_rsi`: `diff()` leaves bar 0 as NaN, which `where` (NaN compares
False) and `fillna` turn into 0; every later bar contributes
`max (close i - close (i-1)) 0`. -/
def gainAt (closes : List ℚ) (i : ℕ) : ℚ :=
  if i = 0 then 0 else max (closes.getD i 0 - closes.getD (i - 1) 0) 0

/-- Day-over-day loss at bar `i`, that is `(-delta.where(delta < 0, 0)).fillna(0)`
in `calculate_rsi`; bar 0 is 0 as for `gainAt`. -/
def lossAt (closes : List ℚ) (i : ℕ) : ℚ :=
  if i = 0 then 0 else max (closes.getD (i - 1) 0 - closes.getD i 0) 0

/-- Indices of the trailing rolling window ending at bar `i` used by
`rolling(window=period, min_periods=1)`: bars `max 0 (i+1-period)` up to `i`
(natural subtraction realises the clipping at 0). -/
def windowIdx (period i : ℕ) : List ℕ :=
  List.range' (i + 1 - period) (i + 1 - (i + 1 - period))

/-- Rolling mean of gains ending at bar `i`,
`gain.rolling(window=period, min_periods=1).mean()`. -/
def avgGain (closes : List ℚ) (period i : ℕ) : ℚ :=
  ((windowIdx period i).map (gainAt closes)).sum / ((windowIdx period i).length : ℚ)

/-- Rolling mean of losses ending at bar `i`,
`loss.rolling(window=period, min_periods=1).mean()`. -/
def avgLoss (closes : List ℚ) (period i : ℕ) : ℚ :=
  ((windowIdx period i).map (lossAt closes)).sum / ((windowIdx period i).length : ℚ)

/-- RSI at bar `i`: the code computes `rs = avg_gain / avg_loss` and
`RSI = 100 - 100 / (1 + rs)` followed by `fillna(50)`.  In float semantics
`0/0` is NaN, the whole formula stays NaN and `fillna` substitutes 50, while
`x/0` with `x > 0` is `+inf` and the formula collapses to `100 - 0 = 100`;
both degenerate branches are therefore written out explicitly. -/
def rsiAt (closes : List ℚ) (period i : ℕ) : ℚ :=
  if avgLoss closes period i = 0 then
    (if avgGain closes period i = 0 then 50 else 100)
  else
    100 - 100 / (1 + avgGain closes period i / avgLoss closes period i)

/-- Model of `calculate_rsi` (src/subcode/Preparation.py, lines 29-44): one
RSI value per input bar. -/
def calculate_rsi (closes : List ℚ) (period : ℕ) : List ℚ :=
  (List.range closes.length).map (rsiAt closes period)

/-- Buy crossing at bar `i` in `generate_signals`:
`(RSI > oversold) & (RSI.shift(1) <= oversold)`.  At bar 0 the shifted value
is NaN and every comparison with NaN is False, hence the `0 < i` conjunct. -/
def buySig (rsi : List ℚ) (oversold : ℚ) (i : ℕ) : Prop :=
  0 < i ∧ oversold < rsi.getD i 0 ∧ rsi.getD (i - 1) 0 ≤ oversold

/-- Sell crossing at bar `i` in `generate_signals`:
`(RSI < overbought) & (RSI.shift(1) >= overbought)`; bar 0 as in `buySig`. -/
def sellSig (rsi : List ℚ) (overbought : ℚ) (i : ℕ) : Prop :=
  0 < i ∧ rsi.getD i 0 < overbought ∧ overbought ≤ rsi.getD (i - 1) 0

instance (rsi : List ℚ) (oversold : ℚ) (i : ℕ) : Decidable (buySig rsi oversold i) := by
  unfold buySig; infer_instance

instance (rsi : List ℚ) (overbought : ℚ) (i : ℕ) : Decidable (sellSig rsi overbought i) := by
  unfold sellSig; infer_instance

/-- Model of `generate_signals` (src/subcode/Preparation.py, lines 47-61): the
`Signal` column is initialised to 0, the bars satisfying the buy crossing are
set to 1, and afterwards the bars satisfying the sell crossing are set to -1,
so the sell assignment would win where both conditions held. -/
def generate_signals (rsi : List ℚ) (overbought oversold : ℚ) : List ℤ :=
  (List.range rsi.length).map (fun i =>
    if sellSig rsi overbought i then -1
    else if buySig rsi oversold i then 1
    else 0)

/-- Running state of the simulation loop in `backtest_strategy`: `cash`,
`holdings` (a Python `int`, hence modelled as ℤ so that non-negativity is a
theorem, not a typing artefact) and `total_fees`. -/
structure SimState where
  cash : ℚ
  holdings : ℤ
  totalFees : ℚ
  deriving DecidableEq

/-- One day of the trade decision in `backtest_strategy`
(src/subcode/Preparation.py, lines 86-113).  Returns the new state, the
recorded trade (1 buy, -1 sell, 0 hold) and the `positions.append` argument,
where `none` stands for the branch `positions.append(positions[-1] if
positions else 0)`.  `int(cash // price)` is floor division, modelled by
`Int.floor`; theorems assume `0 < price` (on `price = 0` Python would raise
`ZeroDivisionError`, while the rational model yields 0 shares). -/
def stepTrade (feeRate price : ℚ) (signal : ℤ) (s : SimState) : SimState × ℤ × Option ℤ :=
  if signal = 1 ∧ s.holdings = 0 then
    (if 0 < ⌊s.cash / price⌋ then
      (⟨s.cash - ((⌊s.cash / price⌋ : ℚ) * price + (⌊s.cash / price⌋ : ℚ) * price * feeRate),
        s.holdings + ⌊s.cash / price⌋,
        s.totalFees + (⌊s.cash / price⌋ : ℚ) * price * feeRate⟩, 1, some 1)
    else (s, 0, none))
  else if signal = -1 ∧ 0 < s.holdings then
    (⟨s.cash + ((s.holdings : ℚ) * price - (s.holdings : ℚ) * price * feeRate),
      0,
      s.totalFees + (s.holdings : ℚ) * price * feeRate⟩, -1, some 0)
  else (s, 0, none)

/-- The per-day columns appended by the complete `backtest_strategy` of
src/subcode/Preparation.py, plus the scalar `Total Fees` column. -/
structure BacktestCols where
  pvs : List ℚ
  positions : List ℤ
  trades : List ℤ
  rets : List ℚ
  totalFees : ℚ
  deriving DecidableEq

/-- The simulation loop of src/subcode/Preparation.py over the remaining
days, carrying the running state, the previous portfolio value
(`prev_portfolio_value`, initially the initial capital) and the last
recorded position (`positions[-1] if positions else 0`, initially 0). -/
def runDays (feeRate : ℚ) : List (ℚ × ℤ) → SimState → ℚ → ℤ → BacktestCols
  | [], s, _, _ => ⟨[], [], [], [], s.totalFees⟩
  | (price, signal) :: rest, s, prevPV, lastPos =>
      let r := stepTrade feeRate price signal s
      let pos := r.2.2.getD lastPos
      let pv := r.1.cash + (r.1.holdings : ℚ) * price
      let ret := if prevPV ≠ 0 then (pv - prevPV) / prevPV else 0
      let tail := runDays feeRate rest r.1 pv pos
      ⟨pv :: tail.pvs, pos :: tail.positions, r.2.1 :: tail.trades, ret :: tail.rets,
        tail.totalFees⟩

/-- Model of the complete `backtest_strategy` (src/subcode/Preparation.py,
lines 64-131); the day list pairs each close with its signal. -/
def backtest_strategy (closes : List ℚ) (signals : List ℤ)
    (initialCapital feeRate : ℚ) : BacktestCols :=
  runDays feeRate (closes.zip signals) ⟨initialCapital, 0, 0⟩ initialCapital 0

/-- Every `SimState` the simulation passes through, the initial state
included; the trajectory of `runDays` is the fold of the same `stepTrade`. -/
def simStates (feeRate : ℚ) : List (ℚ × ℤ) → SimState → List SimState
  | [], s => [s]
  | (price, signal) :: rest, s =>
      s :: simStates feeRate rest (stepTrade feeRate price signal s).1

/-- One day of the simplified `backtest_strategy` of src/subcode/Main.py
(lines 331-352): same trade decision, but no position bookkeeping. -/
def stepTradeSimple (feeRate price : ℚ) (signal : ℤ) (s : SimState) : SimState × ℤ :=
  if signal = 1 ∧ s.holdings = 0 then
    (if 0 < ⌊s.cash / price⌋ then
      (⟨s.cash - ((⌊s.cash / price⌋ : ℚ) * price + (⌊s.cash / price⌋ : ℚ) * price * feeRate),
        s.holdings + ⌊s.cash / price⌋,
        s.totalFees + (⌊s.cash / price⌋ : ℚ) * price * feeRate⟩, 1)
    else (s, 0))
  else if signal = -1 ∧ 0 < s.holdings then
    (⟨s.cash + ((s.holdings : ℚ) * price - (s.holdings : ℚ) * price * feeRate),
      0,
      s.totalFees + (s.holdings : ℚ) * price * feeRate⟩, -1)
  else (s, 0)

/-- The simulation loop of the simplified variant (src/subcode/Main.py): it
records only the portfolio values and the trades. -/
def runDaysSimple (feeRate : ℚ) : List (ℚ × ℤ) → SimState → List ℚ × List ℤ
  | [], _ => ([], [])
  | (price, signal) :: rest, s =>
      let r := stepTradeSimple feeRate price signal s
      let tail := runDaysSimple feeRate rest r.1
      ((r.1.cash + (r.1.holdings : ℚ) * price) :: tail.1, r.2 :: tail.2)

/-- Model of the simplified `backtest_strategy` (src/subcode/Main.py,
lines 319-356): portfolio values and trades only, no daily-return column. -/
def backtest_strategy_simple (closes : List ℚ) (signals : List ℤ)
    (initialCapital feeRate : ℚ) : List ℚ × List ℤ :=
  runDaysSimple feeRate (closes.zip signals) ⟨initialCapital, 0, 0⟩

/-- Mean of a series (`Series.mean`); only applied to non-empty series here
(on an empty series pandas would give NaN, the rational model gives 0). -/
def listMean (xs : List ℚ) : ℚ := xs.sum / (xs.length : ℚ)

/-- Sample variance with `ddof = 1`, the square of `Series.std()`; `none`
models the NaN that pandas returns for fewer than two observations. -/
def sampleVar (xs : List ℚ) : Option ℚ :=
  if xs.length < 2 then none
  else some ((xs.map (fun x => (x - listMean xs) ^ 2)).sum / ((xs.length : ℚ) - 1))

/-- Expanding maximum continuing from a running maximum `m`. -/
def expandingMaxFrom (m : ℚ) : List ℚ → List ℚ
  | [] => []
  | x :: xs => max m x :: expandingMaxFrom (max m x) xs

/-- `expanding(min_periods=1).max()`: running maximum inclusive of the
current entry. -/
def expandingMax : List ℚ → List ℚ
  | [] => []
  | x :: xs => x :: expandingMaxFrom x xs

/-- Per-day drawdowns `(value - cumulative_max) / cumulative_max`.  All uses
have positive running maxima; on a zero maximum the rational division gives
0, which coincidentally is also the fallback the spec prescribes there. -/
def drawdowns (pvs : List ℚ) : List ℚ :=
  List.zipWith (fun v m => (v - m) / m) pvs (expandingMax pvs)

/-- Minimum of a series (`Series.min`); only applied to non-empty series. -/
def listMin : List ℚ → ℚ
  | [] => 0
  | x :: xs => xs.foldl min x

/-- The hardcoded annual risk-free rate of `calculate_performance_metrics`. -/
def riskFreeRate : ℚ := 1 / 100

/-- Result of the Sharpe-ratio expression
`(returns.mean() * 252 - risk_free_rate) / volatility if volatility != 0 else 0`.
With fewer than two observations the pandas `std` is NaN, `NaN != 0` is True
in Python, and dividing by NaN again yields NaN (`nan`); a volatility of
exactly 0 takes the explicit 0 fallback (`zero`); otherwise the value is
`num / sqrt varAnn` with `varAnn` the annualized variance, kept symbolically
as `div num varAnn` so that the development stays inside ℚ (the square root
is irrational; `varAnn > 0` makes the represented real value well defined
and uniquely recoverable). -/
inductive SharpeVal where
  | nan : SharpeVal
  | zero : SharpeVal
  | div (num varAnn : ℚ) : SharpeVal
  deriving DecidableEq

/-- The Sharpe-ratio computation applied to a daily-return series. -/
def sharpeOf (rets : List ℚ) : SharpeVal :=
  match sampleVar rets with
  | none => SharpeVal.nan
  | some v =>
      if v = 0 then SharpeVal.zero
      else SharpeVal.div (listMean rets * 252 - riskFreeRate) (v * 252)

/-- One summary column of `calculate_performance_metrics`.  `volSq` is the
square of the reported annualized volatility `std * sqrt 252` (so the report
is NaN iff `volSq = none` and 0 iff `volSq = some 0`, the square root being
injective on non-negatives).  `feesPaid` and `numTrades` are `none` exactly
where the code reports the string `N/A`. -/
structure Metrics where
  finalValue : ℚ
  totalReturn : ℚ
  maxDrawdown : ℚ
  volSq : Option ℚ
  sharpe : SharpeVal
  feesPaid : Option ℚ
  numTrades : Option ℤ
  deriving DecidableEq

/-- Buy-and-hold portfolio values
`initial_capital * (Close / Close.iloc[0])`. -/
def bhPortfolioValues (closes : List ℚ) (cap : ℚ) : List ℚ :=
  closes.map (fun c => cap * (c / closes.getD 0 0))

/-- Buy-and-hold daily returns `Close.pct_change().fillna(0)`: the change of
bar 0 is NaN, filled with 0. -/
def bhDailyReturns (closes : List ℚ) : List ℚ :=
  (List.range closes.length).map (fun i =>
    if i = 0 then 0 else closes.getD i 0 / closes.getD (i - 1) 0 - 1)

/-- Model of `calculate_performance_metrics` (src/subcode/Preparation.py,
lines 134-183).  Its very first statement,
`data['Portfolio Value'].iloc[-1]`, raises `IndexError` on an empty frame;
that raise is modelled as `none`. -/
def calculate_performance_metrics (closes : List ℚ) (bt : BacktestCols) (cap : ℚ) :
    Option (Metrics × Metrics) :=
  if bt.pvs = [] then none
  else
    some
      ({ finalValue := bt.pvs.getLastD 0
         totalReturn := bt.pvs.getLastD 0 / cap - 1
         maxDrawdown := listMin (drawdowns bt.pvs)
         volSq := (sampleVar bt.rets).map (fun v => v * 252)
         sharpe := sharpeOf bt.rets
         feesPaid := some bt.totalFees
         numTrades := some (bt.trades.map (fun t => |t|)).sum },
       { finalValue := (bhPortfolioValues closes cap).getLastD 0
         totalReturn := (bhPortfolioValues closes cap).getLastD 0 / cap - 1
         maxDrawdown := listMin (drawdowns (bhPortfolioValues closes cap))
         volSq := (sampleVar (bhDailyReturns closes)).map (fun v => v * 252)
         sharpe := sharpeOf (bhDailyReturns closes)
         feesPaid := none
         numTrades := none })

/-- The columns of the pandas DataFrame flowing through the pipeline, with
`none` for a column that has not (yet) been assigned. -/
structure DataFrame where
  close : List ℚ
  rsiCol : Option (List ℚ)
  signalCol : Option (List ℤ)
  pvCol : Option (List ℚ)
  feesCol : Option ℚ
  posCol : Option (List ℤ)
  tradesCol : Option (List ℤ)
  retCol : Option (List ℚ)
  deriving DecidableEq

/-- `calculate_rsi` at the DataFrame level: `data['RSI'] = ...` assigns the
new column on the argument object itself and the function returns that same
object, so the caller sees the mutation — the post-state of the argument
(first component) equals the returned frame (second component). -/
def calculate_rsi_py (df : DataFrame) (period : ℕ) : DataFrame × DataFrame :=
  ({ df with rsiCol := some (calculate_rsi df.close period) },
   { df with rsiCol := some (calculate_rsi df.close period) })

/-- `generate_signals` at the DataFrame level: like `calculate_rsi_py` it
assigns the `Signal` column in place and returns the argument; `none` models
the `KeyError` raised when the `RSI` column is missing. -/
def generate_signals_py (df : DataFrame) (overbought oversold : ℚ) :
    Option (DataFrame × DataFrame) :=
  df.rsiCol.map (fun r =>
    ({ df with signalCol := some (generate_signals r overbought oversold) },
     { df with signalCol := some (generate_signals r overbought oversold) }))

/-- The complete `backtest_strategy` at the DataFrame level: it starts with
`data = data.copy()`, so all column assignments land on a fresh frame and
the post-state of the argument (first component) is the unchanged input;
`none` models the `KeyError` when the `Signal` column is missing. -/
def backtest_strategy_py (df : DataFrame) (cap feeRate : ℚ) :
    Option (DataFrame × DataFrame) :=
  df.signalCol.map (fun sigs =>
    (df,
     { df with
        pvCol := some (backtest_strategy df.close sigs cap feeRate).pvs
        feesCol := some (backtest_strategy df.close sigs cap feeRate).totalFees
        posCol := some (backtest_strategy df.close sigs cap feeRate).positions
        tradesCol := some (backtest_strategy df.close sigs cap feeRate).trades
        retCol := some (backtest_strategy df.close sigs cap feeRate).rets }))

/-- `calculate_performance_metrics` at the DataFrame level: it also starts
with `data = data.copy()`, so the argument (first component) is returned
unmodified; `none` models the `KeyError` on a missing column as well as the
`IndexError` on an empty frame. -/
def calculate_performance_metrics_py (df : DataFrame) (cap : ℚ) :
    Option (DataFrame × (Metrics × Metrics)) :=
  match df.pvCol, df.feesCol, df.posCol, df.tradesCol, df.retCol with
  | some pvs, some fees, some pos, some trades, some rets =>
      (calculate_performance_metrics df.close ⟨pvs, pos, trades, rets, fees⟩ cap).map
        (fun m => (df, m))
  | _, _, _, _, _ => none

lemma getD_map_range {α : Type} (f : ℕ → α) {n i : ℕ} (hi : i < n) (d : α) :
    ((List.range n).map f).getD i d = f i := by
  simp [List.getD_eq_getElem?_getD, List.getElem?_map, List.getElem?_range hi]

lemma gainAt_nonneg (closes : List ℚ) (i : ℕ) : 0 ≤ gainAt closes i := by
  unfold gainAt; split
  · exact le_refl 0
  · exact le_max_right _ _

lemma lossAt_nonneg (closes : List ℚ) (i : ℕ) : 0 ≤ lossAt closes i := by
  unfold lossAt; split
  · exact le_refl 0
  · exact le_max_right _ _

lemma avgGain_nonneg (closes : List ℚ) (period i : ℕ) : 0 ≤ avgGain closes period i := by
  unfold avgGain
  refine div_nonneg (List.sum_nonneg ?_) (by positivity)
  rintro x hx
  obtain ⟨j, _, rfl⟩ := List.mem_map.mp hx
  exact gainAt_nonneg closes j

lemma avgLoss_nonneg (closes : List ℚ) (period i : ℕ) : 0 ≤ avgLoss closes period i := by
  unfold avgLoss
  refine div_nonneg (List.sum_nonneg ?_) (by positivity)
  rintro x hx
  obtain ⟨j, _, rfl⟩ := List.mem_map.mp hx
  exact lossAt_nonneg closes j

lemma rsiAt_mem_Icc (closes : List ℚ) (period i : ℕ) :
    0 ≤ rsiAt closes period i ∧ rsiAt closes period i ≤ 100 := by
  unfold rsiAt
  split_ifs with hal hag
  · norm_num
  · norm_num
  · have hal0 : 0 < avgLoss closes period i :=
      lt_of_le_of_ne (avgLoss_nonneg closes period i) (Ne.symm hal)
    have hrs : 0 ≤ avgGain closes period i / avgLoss closes period i :=
      div_nonneg (avgGain_nonneg closes period i) (le_of_lt hal0)
    have h1 : (0:ℚ) < 1 + avgGain closes period i / avgLoss closes period i := by linarith
    have hle : 100 / (1 + avgGain closes period i / avgLoss closes period i) ≤ 100 :=
      div_le_self (by norm_num) (by linarith)
    have hpos : 0 ≤ 100 / (1 + avgGain closes period i / avgLoss closes period i) :=
      div_nonneg (by norm_num) (le_of_lt h1)
    constructor <;> linarith

lemma rsiAt_first (closes : List ℚ) (period : ℕ) (hp : 0 < period) :
    rsiAt closes period 0 = 50 := by
  have h10 : 1 - period = 0 := Nat.sub_eq_zero_of_le hp
  have hw : windowIdx period 0 = [0] := by
    simp [windowIdx, h10, List.range']
  simp [rsiAt, avgGain, avgLoss, hw, gainAt, lossAt]

/-- Claim C4: on a non-empty price series, `calculate_rsi` produces exactly
one RSI value per input bar, every value lies in the interval [0,100], and
the first bar gets the neutral fallback 50. -/
theorem c4_rsi_shape (closes : List ℚ) (period : ℕ)
    (hne : closes ≠ []) (hp : 0 < period) :
    (calculate_rsi closes period).length = closes.length ∧
    (∀ r ∈ calculate_rsi closes period, 0 ≤ r ∧ r ≤ 100) ∧
    (calculate_rsi closes period).getD 0 0 = 50 := by
  refine ⟨by simp [calculate_rsi], ?_, ?_⟩
  · intro r hr
    obtain ⟨j, _, rfl⟩ := List.mem_map.mp hr
    exact rsiAt_mem_Icc closes period j
  · rw [calculate_rsi, getD_map_range _ (List.length_pos.mpr hne)]
    exact rsiAt_first closes period hp

/-- Witness for C4 at the concrete series of the specification scenario. -/
theorem c4_rsi_shape_witness :
    ([100, 90, 80, 95, 110] : List ℚ) ≠ [] ∧
    (calculate_rsi [100, 90, 80, 95, 110] 14).getD 0 0 = 50 :=
  ⟨by simp, (c4_rsi_shape [100, 90, 80, 95, 110] 14 (by simp) (by norm_num)).2.2⟩

/-- Claim C10: the neutral fallback 50 appears at every bar whose trailing
window has average gain 0 and average loss 0; in particular a run of equal
closes covering the whole window yields RSI exactly 50 at that bar. -/
theorem c10_neutral_flat_window (closes : List ℚ) (period i : ℕ)
    (hi : i < closes.length) :
    (avgGain closes period i = 0 → avgLoss closes period i = 0 →
      (calculate_rsi closes period).getD i 0 = 50) ∧
    ((∀ j ∈ windowIdx period i, closes.getD j 0 = closes.getD (j - 1) 0) →
      (calculate_rsi closes period).getD i 0 = 50) := by
  have hbase : avgGain closes period i = 0 → avgLoss closes period i = 0 →
      (calculate_rsi closes period).getD i 0 = 50 := by
    intro hag hal
    rw [calculate_rsi, getD_map_range _ hi]
    simp [rsiAt, hag, hal]
  refine ⟨hbase, fun hflat => ?_⟩
  have hgain : avgGain closes period i = 0 := by
    unfold avgGain
    rw [List.sum_eq_zero, zero_div]
    intro x hx
    obtain ⟨j, hj, rfl⟩ := List.mem_map.mp hx
    unfold gainAt
    split
    · rfl
    · rw [hflat j hj]; simp
  have hloss : avgLoss closes period i = 0 := by
    unfold avgLoss
    rw [List.sum_eq_zero, zero_div]
    intro x hx
    obtain ⟨j, hj, rfl⟩ := List.mem_map.mp hx
    unfold lossAt
    split
    · rfl
    · rw [hflat j hj]; simp
  exact hbase hgain hloss

/-- Witness for C10: a flat run in the middle of a non-constant series
(window of width 3 ending at bar 4) yields RSI exactly 50 there. -/
theorem c10_neutral_flat_window_witness :
    (calculate_rsi [1, 5, 5, 5, 5] 3).getD 4 0 = 50 :=
  (c10_neutral_flat_window [1, 5, 5, 5, 5] 3 4 (by norm_num)).2 (by decide)

lemma not_buySig_and_sellSig (rsi : List ℚ) (overbought oversold : ℚ) (i : ℕ) :
    ¬(buySig rsi oversold i ∧ sellSig rsi overbought i) := by
  rintro ⟨⟨-, hb1, hb2⟩, ⟨-, hs1, hs2⟩⟩
  linarith

/-- Claim C3: `generate_signals` yields one signal per bar; bar 0 is always
Hold; for every bar the signal is Buy exactly on the oversold upcrossing and
Sell exactly on the overbought downcrossing, Hold otherwise; and no bar can
satisfy both crossings at once (for any thresholds). -/
theorem c3_signal_rule (rsi : List ℚ) (overbought oversold : ℚ) :
    (generate_signals rsi overbought oversold).length = rsi.length ∧
    (rsi ≠ [] → (generate_signals rsi overbought oversold).getD 0 0 = 0) ∧
    ∀ i, i < rsi.length →
      ((generate_signals rsi overbought oversold).getD i 0 = 1 ↔ buySig rsi oversold i) ∧
      ((generate_signals rsi overbought oversold).getD i 0 = -1 ↔ sellSig rsi overbought i) ∧
      (¬buySig rsi oversold i → ¬sellSig rsi overbought i →
        (generate_signals rsi overbought oversold).getD i 0 = 0) ∧
      ¬(buySig rsi oversold i ∧ sellSig rsi overbought i) := by
  refine ⟨by simp [generate_signals], ?_, ?_⟩
  · intro hne
    rw [generate_signals, getD_map_range _ (List.length_pos.mpr hne)]
    simp [buySig, sellSig]
  · intro i hi
    rw [generate_signals, getD_map_range _ hi]
    refine ⟨?_, ?_, ?_, not_buySig_and_sellSig rsi overbought oversold i⟩
    · constructor
      · intro h
        by_contra hb
        simp [hb] at h
        split_ifs at h <;> norm_num at h
      · intro hb
        have hs : ¬ sellSig rsi overbought i := fun hs =>
          not_buySig_and_sellSig rsi overbought oversold i ⟨hb, hs⟩
        simp [hs, hb]
    · constructor
      · intro h
        by_contra hs
        simp [hs] at h
        split_ifs at h <;> norm_num at h
      · intro hs
        simp [hs]
    · intro hb hs
      simp [hb, hs]

/-- Witness for C3 at a concrete oversold upcrossing (bar 2 of the series
50, 20, 40 with oversold level 30). -/
theorem c3_signal_rule_witness :
    (generate_signals [50, 20, 40] 70 30).getD 2 0 = 1 :=
  ((c3_signal_rule [50, 20, 40] 70 30).2.2 2 (by norm_num)).1.mpr (by decide)

/-- Claim C1: from the Flat state a Buy signal buys `⌊cash / price⌋` shares;
when at least one share is affordable the cash drops by
`shares * price + fee` with `fee = shares * price * feeRate`, the fee joins
the cumulative fees, the state turns Long and the recorded action is Buy
(trade 1, position 1); when no share is affordable nothing changes and the
recorded action is Hold; in particular at cash 5 and price 100 no trade
executes. -/
theorem c1_flat_buy (feeRate price cash fees : ℚ) (hp : 0 < price) :
    (1 ≤ ⌊cash / price⌋ →
      stepTrade feeRate price 1 ⟨cash, 0, fees⟩ =
        (⟨cash - ((⌊cash / price⌋ : ℚ) * price + (⌊cash / price⌋ : ℚ) * price * feeRate),
          ⌊cash / price⌋, fees + (⌊cash / price⌋ : ℚ) * price * feeRate⟩, 1, some 1)) ∧
    (⌊cash / price⌋ < 1 →
      stepTrade feeRate price 1 ⟨cash, 0, fees⟩ = (⟨cash, 0, fees⟩, 0, none)) ∧
    stepTrade feeRate 100 1 ⟨5, 0, fees⟩ = (⟨5, 0, fees⟩, 0, none) := by
  refine ⟨fun h => ?_, fun h => ?_, ?_⟩
  · have h0 : (0:ℤ) < ⌊cash / price⌋ := by omega
    simp [stepTrade, h0]
  · have h0 : ¬ (0:ℤ) < ⌊cash / price⌋ := by omega
    simp [stepTrade, h0]
  · have h5 : ⌊(5:ℚ) / 100⌋ = 0 := by
      rw [Int.floor_eq_zero_iff]
      constructor <;> norm_num
    simp [stepTrade, h5]

/-- Witness for C1: with cash 10, price 2 and fee rate 1 percent, five shares
are bought, cash and fees move as claimed. -/
theorem c1_flat_buy_witness :
    (0:ℚ) < 2 ∧ 1 ≤ ⌊(10:ℚ) / 2⌋ ∧
    stepTrade (1/100) 2 1 ⟨10, 0, 0⟩ =
      (⟨10 - ((⌊(10:ℚ) / 2⌋ : ℚ) * 2 + (⌊(10:ℚ) / 2⌋ : ℚ) * 2 * (1/100)),
        ⌊(10:ℚ) / 2⌋, 0 + (⌊(10:ℚ) / 2⌋ : ℚ) * 2 * (1/100)⟩, 1, some 1) := by
  have h5 : ⌊(10:ℚ) / 2⌋ = 5 := by
    rw [show (10:ℚ) / 2 = ((5:ℤ):ℚ) by norm_num, Int.floor_intCast]
  exact ⟨by norm_num, by rw [h5]; norm_num,
    (c1_flat_buy (1/100) 2 10 0 (by norm_num)).1 (by rw [h5]; norm_num)⟩

lemma stepTrade_invariant (feeRate price : ℚ) (signal : ℤ) (s : SimState)
    (hprice : 0 < price) (hh : 0 ≤ s.holdings) (hc : feeRate = 0 → 0 ≤ s.cash) :
    0 ≤ (stepTrade feeRate price signal s).1.holdings ∧
      (feeRate = 0 → 0 ≤ (stepTrade feeRate price signal s).1.cash) := by
  unfold stepTrade
  split_ifs with h1 h2 h3
  · constructor
    · simp only []
      omega
    · intro hf0
      subst hf0
      have hcash : 0 ≤ s.cash := hc rfl
      have hfl : (⌊s.cash / price⌋ : ℚ) * price ≤ s.cash := by
        calc (⌊s.cash / price⌋ : ℚ) * price
            ≤ (s.cash / price) * price :=
              mul_le_mul_of_nonneg_right (Int.floor_le (s.cash / price)) (le_of_lt hprice)
          _ = s.cash := div_mul_cancel₀ _ (ne_of_gt hprice)
      simp only []
      linarith
  · exact ⟨hh, hc⟩
  · obtain ⟨-, hpos⟩ := h3
    refine ⟨by simp, fun hf0 => ?_⟩
    subst hf0
    have hcash : 0 ≤ s.cash := hc rfl
    have hhp : 0 ≤ (s.holdings : ℚ) * price :=
      mul_nonneg (by exact_mod_cast le_of_lt hpos) (le_of_lt hprice)
    simp only []
    linarith
  · exact ⟨hh, hc⟩

lemma simStates_invariant (feeRate : ℚ) (days : List (ℚ × ℤ)) :
    ∀ s : SimState, (∀ d ∈ days, 0 < d.1) →
      0 ≤ s.holdings → (feeRate = 0 → 0 ≤ s.cash) →
      ∀ t ∈ simStates feeRate days s,
        0 ≤ t.holdings ∧ (feeRate = 0 → 0 ≤ t.cash) := by
  induction days with
  | nil =>
      intro s _ hh hc t ht
      simp only [simStates, List.mem_singleton] at ht
      subst ht
      exact ⟨hh, hc⟩
  | cons day rest ih =>
      obtain ⟨price, signal⟩ := day
      intro s hd hh hc t ht
      simp only [simStates, List.mem_cons] at ht
      rcases ht with rfl | ht'
      · exact ⟨hh, hc⟩
      · have hp : 0 < price := hd (price, signal) (List.mem_cons_self _ _)
        have hstep := stepTrade_invariant feeRate price signal s hp hh hc
        exact ih _ (fun d hdm => hd d (List.mem_cons_of_mem _ hdm)) hstep.1 hstep.2 t ht'

/-- Counterexample to claim C2: with initial capital 100, a Buy at price 100
and fee rate 1/10 the code buys one share and charges the fee on top of the
whole cash, leaving the cash at -10, i.e. negative after a trade. -/
theorem c2_negative_cash_counterexample :
    (0:ℚ) < 100 ∧ (0:ℚ) ≤ 1/10 ∧
    ((simStates (1/10) [(100, 1)] ⟨100, 0, 0⟩).getLastD ⟨0, 0, 0⟩).cash = -10 := by
  refine ⟨by norm_num, by norm_num, ?_⟩
  have hf : ⌊(100:ℚ) / 100⌋ = 1 := by
    rw [show (100:ℚ) / 100 = ((1:ℤ):ℚ) by norm_num, Int.floor_intCast]
  simp [simStates, stepTrade, hf]
  norm_num

/-- Claim C2 as amended: for positive prices the holdings stay a non-negative
integer at every point of the simulation, and with a zero fee rate the cash
also stays non-negative after every trade; with a positive fee rate a Buy
can push the cash below zero by the fee, as the counterexample shows. -/
theorem c2_sim_invariants (closes : List ℚ) (signals : List ℤ) (cap feeRate : ℚ)
    (hclose : ∀ p ∈ closes, 0 < p) (hcap : 0 < cap) (hfee : 0 ≤ feeRate) :
    ∀ t ∈ simStates feeRate (closes.zip signals) ⟨cap, 0, 0⟩,
      0 ≤ t.holdings ∧ (feeRate = 0 → 0 ≤ t.cash) := by
  refine simStates_invariant feeRate (closes.zip signals) ⟨cap, 0, 0⟩ ?_ (by simp)
    (fun _ => by simpa using le_of_lt hcap)
  intro d hd
  obtain ⟨p, sg⟩ := d
  exact hclose p (List.of_mem_zip hd).1

/-- Witness for the amended C2 at a one-day series. -/
theorem c2_sim_invariants_witness :
    0 ≤ (⟨100, 0, 0⟩ : SimState).holdings ∧
      ((0:ℚ) = 0 → 0 ≤ (⟨100, 0, 0⟩ : SimState).cash) :=
  c2_sim_invariants [1] [0] 100 0 (by decide) (by norm_num) (le_refl 0)
    ⟨100, 0, 0⟩ (by simp [simStates])

lemma stepTradeSimple_eq (feeRate price : ℚ) (signal : ℤ) (s : SimState) :
    stepTradeSimple feeRate price signal s =
      ((stepTrade feeRate price signal s).1, (stepTrade feeRate price signal s).2.1) := by
  unfold stepTrade stepTradeSimple
  split_ifs <;> rfl

lemma runDaysSimple_eq_runDays (feeRate : ℚ) (days : List (ℚ × ℤ)) :
    ∀ (s : SimState) (prevPV : ℚ) (lastPos : ℤ),
      runDaysSimple feeRate days s =
        ((runDays feeRate days s prevPV lastPos).pvs,
         (runDays feeRate days s prevPV lastPos).trades) := by
  induction days with
  | nil => intro s prevPV lastPos; rfl
  | cons day rest ih =>
      obtain ⟨price, signal⟩ := day
      intro s prevPV lastPos
      simp only [runDaysSimple, runDays, stepTradeSimple_eq]
      rw [ih]

/-- Claim C9: the simplified simulator of Main.py and the complete simulator
of Preparation.py compute identical per-day portfolio-value sequences and
identical per-day trade-action sequences on every input; the complete one
only records extra columns. -/
theorem c9_variant_refinement (closes : List ℚ) (signals : List ℤ) (cap feeRate : ℚ) :
    (backtest_strategy_simple closes signals cap feeRate).1 =
        (backtest_strategy closes signals cap feeRate).pvs ∧
    (backtest_strategy_simple closes signals cap feeRate).2 =
        (backtest_strategy closes signals cap feeRate).trades := by
  unfold backtest_strategy backtest_strategy_simple
  rw [runDaysSimple_eq_runDays feeRate (closes.zip signals) ⟨cap, 0, 0⟩ cap 0]
  exact ⟨rfl, rfl⟩

/-- Counterexample to claim C5: on the empty price series the performance
analyzer does not return empty outputs with all-N/A metrics; its very first
statement `data['Portfolio Value'].iloc[-1]` raises `IndexError`, modelled
here as `none`. -/
theorem c5_empty_counterexample :
    calculate_performance_metrics [] (backtest_strategy [] [] 10000 0) 10000 = none := rfl

/-- Claim C5 as amended: the indicator, signal and simulation stages are
no-ops on the empty series, but the performance analyzer raises `IndexError`
instead of producing all-N/A metrics (the GUI caller guards the empty frame
before the pipeline and never reaches it). -/
theorem c5_empty_pipeline (cap feeRate overbought oversold : ℚ) (period : ℕ) :
    calculate_rsi [] period = [] ∧
    generate_signals [] overbought oversold = [] ∧
    backtest_strategy [] [] cap feeRate = ⟨[], [], [], [], 0⟩ ∧
    calculate_performance_metrics [] (backtest_strategy [] [] cap feeRate) cap = none :=
  ⟨rfl, rfl, rfl, rfl⟩

/-- Counterexample to claim C6: on a single-bar series the annualized
volatility is the pandas NaN (`sampleVar` of one observation is `none`, so
`volSq = none`, not `some 0`) and so the Sharpe ratio is NaN as well, not
the 0 fallback. -/
theorem c6_single_bar_counterexample :
    (calculate_performance_metrics [100]
        (backtest_strategy [100]
          (generate_signals (calculate_rsi [100] 14) 70 30) 10000 (1/1000))
        10000).map (fun m => (m.1.volSq, m.1.sharpe)) = some (none, SharpeVal.nan) := rfl

/-- Claim C6 as amended: on a single-bar series all pipeline outputs are
single-element sequences, the strategy total return is 0 and its max
drawdown is 0, but the annualized volatility and the Sharpe ratio are NaN
(sample standard deviation of one observation), not the zero fallbacks. -/
theorem c6_single_bar (c cap feeRate overbought oversold : ℚ) (period : ℕ)
    (hc : 0 < c) (hcap : 0 < cap) (hp : 0 < period) :
    calculate_rsi [c] period = [50] ∧
    generate_signals (calculate_rsi [c] period) overbought oversold = [0] ∧
    (backtest_strategy [c] [0] cap feeRate).pvs = [cap] ∧
    (backtest_strategy [c] [0] cap feeRate).trades = [0] ∧
    (backtest_strategy [c] [0] cap feeRate).rets = [0] ∧
    (calculate_performance_metrics [c] (backtest_strategy [c] [0] cap feeRate) cap).map
        (fun m => (m.1.totalReturn, m.1.maxDrawdown, m.1.volSq, m.1.sharpe)) =
      some (0, 0, none, SharpeVal.nan) := by
  have hr1 : List.range 1 = [0] := rfl
  have hrsi : calculate_rsi [c] period = [50] := by
    have := rsiAt_first [c] period hp
    simp [calculate_rsi, hr1, this]
  have hstep : stepTrade feeRate c 0 ⟨cap, 0, 0⟩ = (⟨cap, 0, 0⟩, 0, none) := by
    simp [stepTrade]
  have hbt : backtest_strategy [c] [0] cap feeRate = ⟨[cap], [0], [0], [0], 0⟩ := by
    simp [backtest_strategy, runDays, hstep]
  refine ⟨hrsi, ?_, by rw [hbt], by rw [hbt], by rw [hbt], ?_⟩
  · rw [hrsi]
    simp [generate_signals, hr1, buySig, sellSig]
  · rw [hbt]
    have hpv : ([cap] : List ℚ) ≠ [] := by simp
    rw [calculate_performance_metrics]
    rw [if_neg hpv]
    have hdd : drawdowns [cap] = [0] := by
      simp [drawdowns, expandingMax, expandingMaxFrom, sub_self, zero_div]
    have htr : cap / cap - 1 = 0 := by
      rw [div_self (ne_of_gt hcap)]; ring
    simp [hdd, htr, listMin, sampleVar, sharpeOf]

/-- Witness for the amended C6 at close 100, capital 10000 and the default
parameters. -/
theorem c6_single_bar_witness :
    (calculate_performance_metrics [100]
        (backtest_strategy [100] [0] 10000 (1/1000)) 10000).map
        (fun m => (m.1.totalReturn, m.1.maxDrawdown, m.1.volSq, m.1.sharpe)) =
      some (0, 0, none, SharpeVal.nan) :=
  (c6_single_bar 100 10000 (1/1000) 70 30 14 (by norm_num) (by norm_num)
    (by norm_num)).2.2.2.2.2

lemma runDays_pvs_length (feeRate : ℚ) (days : List (ℚ × ℤ)) :
    ∀ (s : SimState) (prevPV : ℚ) (lastPos : ℤ),
      (runDays feeRate days s prevPV lastPos).pvs.length = days.length := by
  induction days with
  | nil => intro s prevPV lastPos; rfl
  | cons day rest ih =>
      obtain ⟨price, signal⟩ := day
      intro s prevPV lastPos
      simp [runDays, ih]

lemma getLastD_map_of_ne_nil (f : ℚ → ℚ) (l : List ℚ) (hne : l ≠ []) (d d' : ℚ) :
    (l.map f).getLastD d = f (l.getLastD d') := by
  cases l with
  | nil => exact absurd rfl hne
  | cons a as =>
      rw [List.getLastD_eq_getLast?, List.getLastD_eq_getLast?, List.getLast?_map]
      cases h : (a :: as).getLast? with
      | none => simp [List.getLast?_cons] at h
      | some x => rfl

/-- Claim C7: for every non-empty positive price series and positive capital
the buy-and-hold total return reported by the performance analyzer equals
`close[-1] / close[0] - 1` exactly, whatever the thresholds and the fee rate
of the RSI strategy are. -/
theorem c7_bh_total_return (closes : List ℚ) (cap feeRate overbought oversold : ℚ)
    (period : ℕ) (hne : closes ≠ []) (hpos : ∀ p ∈ closes, 0 < p) (hcap : 0 < cap) :
    (calculate_performance_metrics closes
        (backtest_strategy closes
          (generate_signals (calculate_rsi closes period) overbought oversold) cap feeRate)
        cap).map (fun m => m.2.totalReturn) =
      some (closes.getLastD 0 / closes.getD 0 0 - 1) := by
  have hlen : (generate_signals (calculate_rsi closes period) overbought oversold).length =
      closes.length := by
    simp [generate_signals, calculate_rsi]
  have hpvs : (backtest_strategy closes
      (generate_signals (calculate_rsi closes period) overbought oversold)
      cap feeRate).pvs ≠ [] := by
    apply List.ne_nil_of_length_pos
    rw [backtest_strategy, runDays_pvs_length, List.length_zip, hlen, min_self]
    exact List.length_pos.mpr hne
  rw [calculate_performance_metrics, if_neg hpvs, Option.map_some']
  have hlast : (bhPortfolioValues closes cap).getLastD 0 =
      cap * (closes.getLastD 0 / closes.getD 0 0) := by
    rw [bhPortfolioValues, getLastD_map_of_ne_nil _ closes hne 0 0]
  simp only [hlast]
  rw [mul_div_cancel_left₀ _ (ne_of_gt hcap)]

/-- Witness for C7 on the two-bar series 100, 110 with the default
parameters: the buy-and-hold total return is 10 percent. -/
theorem c7_bh_total_return_witness :
    (calculate_performance_metrics [100, 110]
        (backtest_strategy [100, 110]
          (generate_signals (calculate_rsi [100, 110] 14) 70 30) 10000 (1/1000))
        10000).map (fun m => m.2.totalReturn) =
      some (([100, 110] : List ℚ).getLastD 0 / ([100, 110] : List ℚ).getD 0 0 - 1) :=
  c7_bh_total_return [100, 110] 10000 (1/1000) 70 30 14 (by simp) (by decide) (by norm_num)

/-- Counterexample to claim C8: `calculate_rsi` is not free of side effects
on its input frame — `data['RSI'] = ...` adds the column on the argument
object itself, so after the call the caller's frame differs from what was
passed in. -/
theorem c8_mutation_counterexample :
    (calculate_rsi_py ⟨[100], none, none, none, none, none, none, none⟩ 14).1 ≠
      ⟨[100], none, none, none, none, none, none, none⟩ := by
  intro h
  have h2 := congrArg DataFrame.rsiCol h
  simp [calculate_rsi_py] at h2

/-- Claim C8 as amended: all four pipeline functions are deterministic
functions of their arguments, and `backtest_strategy` and
`calculate_performance_metrics` copy their input frame and leave it
unmodified; but `calculate_rsi` and `generate_signals` assign their new
column on the input frame itself (the returned frame is the mutated
argument), so those two do not leave their input unmodified. -/
theorem c8_purity (df : DataFrame) (cap feeRate overbought oversold : ℚ) (period : ℕ) :
    (∀ r ∈ backtest_strategy_py df cap feeRate, r.1 = df) ∧
    (∀ r ∈ calculate_performance_metrics_py df cap, r.1 = df) ∧
    (calculate_rsi_py df period).1 = (calculate_rsi_py df period).2 ∧
    (∀ r ∈ generate_signals_py df overbought oversold, r.1 = r.2) := by
  refine ⟨?_, ?_, rfl, ?_⟩
  · intro r hr
    cases hsig : df.signalCol with
    | none => simp [backtest_strategy_py, hsig] at hr
    | some sigs =>
        simp only [backtest_strategy_py, hsig, Option.map_some', Option.mem_def,
          Option.some_inj] at hr
        rw [← hr]
  · intro r hr
    obtain ⟨close, rsiC, sigC, pvC, feesC, posC, tradesC, retC⟩ := df
    cases pvC with
    | none => simp [calculate_performance_metrics_py] at hr
    | some pvs =>
    cases feesC with
    | none => simp [calculate_performance_metrics_py] at hr
    | some fees =>
    cases posC with
    | none => simp [calculate_performance_metrics_py] at hr
    | some pos =>
    cases tradesC with
    | none => simp [calculate_performance_metrics_py] at hr
    | some trades =>
    cases retC with
    | none => simp [calculate_performance_metrics_py] at hr
    | some rets =>
        simp only [calculate_performance_metrics_py, Option.mem_def] at hr
        rcases Option.map_eq_some'.mp hr with ⟨m, -, rfl⟩
        rfl
  · intro r hr
    cases hrsi : df.rsiCol with
    | none => simp [generate_signals_py, hrsi] at hr
    | some rs =>
        simp only [generate_signals_py, hrsi, Option.map_some', Option.mem_def,
          Option.some_inj] at hr
        rw [← hr]

/-- Witness for the amended C8: the backtest leaves a concrete input frame
untouched (its post-state equals the frame passed in). -/
theorem c8_purity_witness :
    ((⟨[100], none, some [0], none, none, none, none, none⟩ : DataFrame),
      (⟨[100], none, some [0], some [10000], some 0, some [0], some [0],
        some [0]⟩ : DataFrame)).1 =
      ⟨[100], none, some [0], none, none, none, none, none⟩ :=
  (c8_purity ⟨[100], none, some [0], none, none, none, none, none⟩ 10000 0 70 30 14).1
    (⟨[100], none, some [0], none, none, none, none, none⟩,
     ⟨[100], none, some [0], some [10000], some 0, some [0], some [0], some [0]⟩)
    (by
      have hstep : stepTrade 0 100 0 (SimState.mk 10000 0 0) =
          (SimState.mk 10000 0 0, 0, none) := by
        simp [stepTrade]
      simp [backtest_strategy_py, backtest_strategy, runDays, hstep])

end HSG
